import Mathlib

/-!
Shallow embedding of the real-time event pipeline (lightning / vessel feeds):
the Blitzortung frame decoder, the bounded in-memory lightning store, the
SSE subscriber registry with its broadcast fan-out, the connector guard
logic, and the credential-gated query interface.  All definitions are
translated directly from the TypeScript source; JavaScript numbers are
modelled exactly — decoder parses as scaled decimals (`DecNum`, with
`Option DecNum` marking NaN where `parseFloat` can produce it), AIS
coordinates as rationals — and JS `Array.prototype.slice` with a negative
argument is modelled including its `slice(-0) = slice(0)` corner case.
-/

namespace Pipeline

/-- Model of `strikes.slice(-n)` in JavaScript: for `n = 0` the call is
`slice(0)` and returns the whole array; for `n ≥ 1` it returns the last
`n` elements. -/
def jsSliceLast (l : List α) (n : Nat) : List α :=
  if n = 0 then l else l.drop (l.length - n)

/-- Last `n` elements of a list (the trailing window, in order). -/
def lastN (n : Nat) (l : List α) : List α := l.drop (l.length - n)

/-- Exact decimal number `num / 10 ^ exp`: the value denoted by a decimal
numeral such as `35.1` (`num = 351`, `exp = 1`).  Kept in this scaled
integer form so that equality and order are computable by pure `Int`/`Nat`
arithmetic. -/
structure DecNum where
  num : Int
  exp : Nat
  deriving DecidableEq, Repr

/-- The rational value denoted by a `DecNum`. -/
def DecNum.toQ (d : DecNum) : ℚ := (d.num : ℚ) / 10 ^ d.exp

/-- Decoded lightning strike as stored by the server.  `lat`/`lon` are
JS numbers that can be NaN (modelled as `none`) because `parseFloat` of a
capture such as `"-"` yields NaN. -/
structure LightningStrike where
  lat : Option DecNum
  lon : Option DecNum
  time : Nat
  id : String
  deriving DecidableEq, Repr

/-- State of the `LightningStore` class: the bounded `strikes` array plus
the lifetime `total` counter. -/
structure StoreState where
  strikes : List LightningStrike
  total : Nat
  deriving DecidableEq, Repr

/-- The `maxSize` constant of `LightningStore` in the source. -/
def lightningMaxSize : Nat := 500

/-- Initial store state (`strikes = []`, `total = 0`). -/
def emptyStore : StoreState := ⟨[], 0⟩

/-- `LightningStore.add`, parametrised by the capacity constant `C`
(the source instance fixes `C = maxSize = 500`): push the strike,
increment the lifetime counter, and if the array has grown past `C`
keep only the last `C` entries via `slice(-C)`. -/
def addStrike (C : Nat) (s : LightningStrike) (st : StoreState) : StoreState :=
  let strikes := st.strikes ++ [s]
  let total := st.total + 1
  if strikes.length > C then ⟨jsSliceLast strikes C, total⟩ else ⟨strikes, total⟩

/-- `LightningStore.getRecent(n)`: `this.strikes.slice(-n)`. -/
def getRecent (n : Nat) (st : StoreState) : List LightningStrike :=
  jsSliceLast st.strikes n

/-- `LightningStore.getTotal()`. -/
def getTotal (st : StoreState) : Nat := st.total

/-- `LightningStore.getLastMinute()`: count of buffered strikes whose
timestamp is within the last 60 000 ms of `now`. -/
def getLastMinute (now : Int) (st : StoreState) : Nat :=
  (st.strikes.filter (fun s => decide (now - 60000 < (s.time : Int)))).length

/-- Fold `add` over a list of strikes (successive `store.add` calls). -/
def addAll (C : Nat) (L : List LightningStrike) (st : StoreState) : StoreState :=
  L.foldl (fun st s => addStrike C s st) st

/-! ## Blitzortung decoder -/

/-- The designated colon substitute U+0106 (Ć). -/
def colonSub : Char := Char.ofNat 0x106

/-- The designated comma substitute U+0119 (ę). -/
def commaSub : Char := Char.ofNat 0x119

/-- Per-character effect of step 1 of the decoder:
`.replace(/Ć/g, ":").replace(/ę/g, ",")`. -/
def structSub (c : Char) : Char :=
  if c = colonSub then ':' else if c = commaSub then ',' else c

/-- Step 1 of the decoder applied to the whole string. -/
def substituteStructural (l : List Char) : List Char := l.map structSub

/-- Character kept by step 2 of the decoder (`[^\x00-\x7F]` is removed). -/
def keepAscii (c : Char) : Bool := decide (c.toNat ≤ 0x7F)

/-- Step 2 of the decoder: strip every remaining non-ASCII code point. -/
def stripNonAscii (l : List Char) : List Char := l.filter keepAscii

/-- The cleaned string the regexes run over: structural substitution then
non-ASCII stripping, in source order. -/
def cleanupFrame (l : List Char) : List Char :=
  stripNonAscii (substituteStructural l)

/-- Drop the leading `p` from `cs` if `p` is a prefix of `cs`, else `none`. -/
def stripPrefixO : List Char → List Char → Option (List Char)
  | [], cs => some cs
  | _ :: _, [] => none
  | p :: ps, c :: cs => if p = c then stripPrefixO ps cs else none

/-- Greedy capture of `(cls+)` at the head of `r` (the regex groups
`(\d+)` and `([-\d.]+)`, which must be non-empty). -/
def capture (cls : Char → Bool) (r : List Char) : Option (List Char) :=
  let d := r.takeWhile cls
  if d.isEmpty then none else some d

/-- Attempt of the regex `"?key"?:(cls+)` anchored at the current
position: optional quote (greedy), the literal key, optional quote, a
colon, then a non-empty greedy capture of class characters. -/
def matchKeyAt (key : List Char) (cls : Char → Bool) (cs : List Char) : Option (List Char) :=
  let afterKey : Option (List Char) :=
    match stripPrefixO ('"' :: key) cs with
    | some r => some r
    | none => stripPrefixO key cs
  match afterKey with
  | none => none
  | some r =>
    match r with
    | '"' :: ':' :: r2 => capture cls r2
    | ':' :: r2 => capture cls r2
    | _ => none

/-- Leftmost match of the regex `"?key"?:(cls+)` over the string: the JS
`String.prototype.match` used by the decoder.  Returns the first
position's capture group. -/
def findMatch (key : List Char) (cls : Char → Bool) : List Char → Option (List Char)
  | [] => none
  | c :: cs =>
    match matchKeyAt key cls (c :: cs) with
    | some d => some d
    | none => findMatch key cls cs

/-- Character class of the regex `\d`. -/
def digitCls (c : Char) : Bool := c.isDigit

/-- Character class of the regex `[-\d.]`. -/
def numCls (c : Char) : Bool := c = '-' || c.isDigit || c = '.'

/-- Exact mathematical value of a digit string (the numeral's value,
before any floating-point rounding). -/
def digitsVal (l : List Char) : Nat :=
  l.foldl (fun n c => n * 10 + (c.toNat - 48)) 0

/-- Fuel-driven floor of the base-2 logarithm (`lgAux n n` computes
`⌊log₂ n⌋` for `n ≥ 1`; structural in the fuel so it evaluates in the
kernel). -/
def lgAux : Nat → Nat → Nat
  | 0, _ => 0
  | fuel + 1, n => if n ≥ 2 then lgAux fuel (n / 2) + 1 else 0

/-- `⌊log₂ n⌋` for `n ≥ 1` (0 at 0). -/
def lgN (n : Nat) : Nat := lgAux n n

/-- Round a natural number to the nearest IEEE-754 binary64 value
(ties to even), returned as a natural number — every double of magnitude
`≥ 2^52` is an integer, and below `2^53` every natural is exact.  This is
what JS `parseInt` produces for a digit string above `2^53`.  (Overflow to
`Infinity`, which needs a value `≥ 2^1024 - 2^970`, is not modelled; the
decoder theorems restrict the raw time below `2^1023`.) -/
def jsRoundNat (x : Nat) : Nat :=
  if x ≤ 2 ^ 53 then x
  else
    let e := lgN x - 52
    let q := x / 2 ^ e
    let r := x % 2 ^ e
    let m := if 2 * r < 2 ^ e then q
      else if 2 * r > 2 ^ e then q + 1
      else if q % 2 = 0 then q else q + 1
    m * 2 ^ e

/-- JS `parseInt(s, 10)` on a `\d+` capture: the exact numeral value
rounded to the nearest double. -/
def jsParseIntDigits (l : List Char) : Nat := jsRoundNat (digitsVal l)

/-- Does `2 ^ k ≤ a / b` hold for the (possibly negative) exponent `k`? -/
def pow2LeRat (k : Int) (a b : Nat) : Bool :=
  if k ≥ 0 then decide (b * 2 ^ k.toNat ≤ a) else decide (b ≤ a * 2 ^ (-k).toNat)

/-- `Math.floor(x / 1e6)` on doubles, for an integer-valued double `x`:
the exact quotient `x / 10^6` is rounded to the nearest binary64 value
(ties to even) by the double division, and the result is floored. -/
def jsFloorDivMillion (x : Nat) : Nat :=
  if x = 0 then 0
  else
    let b : Nat := 10 ^ 6
    let k0 : Int := (lgN x : Int) - (lgN b : Int)
    let k : Int := if pow2LeRat k0 x b then k0 else k0 - 1
    let e : Int := k - 52
    let A : Nat := if e ≥ 0 then x else x * 2 ^ (-e).toNat
    let B : Nat := if e ≥ 0 then b * 2 ^ e.toNat else b
    let q := A / B
    let r := A % B
    let m := if 2 * r < B then q
      else if 2 * r > B then q + 1
      else if q % 2 = 0 then q else q + 1
    if e ≥ 0 then m * 2 ^ e.toNat else m / 2 ^ (-e).toNat

/-- JS `parseFloat` restricted to captures of `[-\d.]+`: optional minus,
integer digits, optional fractional digits; `none` models NaN (no parsable
numeric prefix, e.g. `"-"` or `"."`).  The denoted value is
`±(ip + fp / 10 ^ |fp|)`, returned in exact scaled form. -/
def parseFloatD (cs : List Char) : Option DecNum :=
  let p : Bool × List Char := match cs with
    | '-' :: t => (true, t)
    | _ => (false, cs)
  let ip := p.2.takeWhile Char.isDigit
  let cs2 := p.2.drop ip.length
  let fp := match cs2 with
    | '.' :: t => t.takeWhile Char.isDigit
    | _ => []
  if ip.isEmpty && fp.isEmpty then none
  else
    let mag : Nat := digitsVal ip * 10 ^ fp.length + digitsVal fp
    some ⟨if p.1 then -(mag : Int) else (mag : Int), fp.length⟩

/-- JS `x < c` (integer bound `c`) where `x` may be NaN (`none`): any
comparison with NaN is false.  `d.num / 10 ^ d.exp < c ↔ d.num < c * 10 ^ d.exp`. -/
def jsLtInt (x : Option DecNum) (c : Int) : Bool :=
  match x with
  | none => false
  | some d => decide (d.num < c * 10 ^ d.exp)

/-- JS `x > c` (integer bound `c`) where `x` may be NaN (`none`). -/
def jsGtInt (x : Option DecNum) (c : Int) : Bool :=
  match x with
  | none => false
  | some d => decide (c * 10 ^ d.exp < d.num)

/-- Raw decode result of `decodeBlitzortung` before the id is attached:
`{ lat, lon, time }` with `lat`/`lon` possibly NaN. -/
structure DecodedStrike where
  lat : Option DecNum
  lon : Option DecNum
  time : Nat
  deriving DecidableEq, Repr

/-- The `time`, `lat`, `lon` key literals. -/
def timeKey : List Char := ['t', 'i', 'm', 'e']

/-- Key literal `lat`. -/
def latKey : List Char := ['l', 'a', 't']

/-- Key literal `lon`. -/
def lonKey : List Char := ['l', 'o', 'n']

/-- `decodeBlitzortung`: substitute the two structural code points, strip
remaining non-ASCII noise, regex-extract `time`/`lat`/`lon`, validate the
coordinate ranges (NaN passes, as in JS), and normalise a > 10^15
nanosecond timestamp to milliseconds.  `parseInt` and the division by
`1e6` follow JS double semantics: the raw value is rounded to the nearest
binary64 (`jsParseIntDigits`) and `Math.floor(rawTime / 1e6)` rounds the
quotient to the nearest binary64 before flooring (`jsFloorDivMillion`). -/
def decodeBlitzortung (b : List Char) : Option DecodedStrike :=
  let decoded := cleanupFrame b
  match findMatch timeKey digitCls decoded with
  | none => none
  | some tm =>
    match findMatch latKey numCls decoded with
    | none => none
    | some lm =>
      match findMatch lonKey numCls decoded with
      | none => none
      | some om =>
        let rawTime := jsParseIntDigits tm
        let lat := parseFloatD lm
        let lon := parseFloatD om
        if jsLtInt lat (-90) || jsGtInt lat 90 || jsLtInt lon (-180) || jsGtInt lon 180 then none
        else some ⟨lat, lon, if rawTime > 10 ^ 15 then jsFloorDivMillion rawTime else rawTime⟩

/-! ## Frames: clean shape, structural substitution, noise insertion -/

/-- Trailing `"lon":o}` segment of the canonical frame. -/
def lonTail (o : List Char) : List Char :=
  '"' :: 'l' :: 'o' :: 'n' :: '"' :: ':' :: (o ++ ['}'])

/-- Trailing `"lat":a,"lon":o}` segment of the canonical frame. -/
def latTail (a o : List Char) : List Char :=
  '"' :: 'l' :: 'a' :: 't' :: '"' :: ':' :: (a ++ ',' :: lonTail o)

/-- The clean JSON-like frame `{"time":t,"lat":a,"lon":o}`. -/
def cleanFrame (t a o : List Char) : List Char :=
  '{' :: '"' :: 't' :: 'i' :: 'm' :: 'e' :: '"' :: ':' :: (t ++ ',' :: latTail a o)

/-- Noise code point: non-ASCII and distinct from the two designated
structural substitutes. -/
def isNoiseB (c : Char) : Bool :=
  decide (0x7F < c.toNat) && !(decide (c = colonSub)) && !(decide (c = commaSub))

/-- Remove the inserted noise code points from a frame. -/
def denoise (l : List Char) : List Char := l.filter (fun c => !(isNoiseB c))

/-- One output character stands for one clean character: either unchanged,
or the designated substitute for `:` or `,`. -/
def substChB (p c : Char) : Bool :=
  decide (p = c) || (decide (p = ':') && decide (c = colonSub))
    || (decide (p = ',') && decide (c = commaSub))

/-- Pointwise structural substitution between a clean string and its
obfuscated counterpart. -/
def substListB : List Char → List Char → Bool
  | [], [] => true
  | p :: ps, c :: cs => substChB p c && substListB ps cs
  | _, _ => false

/-- First noise code point spliced into the scenario frame. -/
def scenNoiseA : Char := Char.ofNat 0x142

/-- Second noise code point spliced into the scenario frame. -/
def scenNoiseB : Char := Char.ofNat 0x250

/-- The scenario frame: `{"time":1700000000000123000,"lat":35.1,"lon":139.6}`
with two noise code points spliced inside the time digits and the colon
after `"lat"` replaced by the designated substitute. -/
def scenFrame : List Char :=
  ['{'] ++ "\"time\":17000".toList ++ [scenNoiseA] ++ "00000000".toList ++ [scenNoiseB]
  ++ "123000,\"lat\"".toList ++ [colonSub] ++ "35.1,\"lon\":139.6".toList ++ ['}']

/-! ## SSE registry and broadcast -/

/-- One registered SSE subscriber: its registry key and whether a write to
its response stream currently succeeds (`res.write` throwing models a dead
client). -/
structure SSEClient where
  id : String
  writeOk : Bool
  deriving DecidableEq, Repr

/-- `broadcastLightning`: serialize once, iterate the whole registry
writing to every subscriber, collect the ids whose write threw, and only
after the iteration delete the collected ids.  Returns the new registry
and the `(id, strike)` deliveries made during the iteration. -/
def broadcastLightning (s : LightningStrike) (clients : List SSEClient) :
    List SSEClient × List (String × LightningStrike) :=
  let delivered := (clients.filter (fun c => c.writeOk)).map (fun c => (c.id, s))
  let toDelete := (clients.filter (fun c => !c.writeOk)).map (fun c => c.id)
  (clients.filter (fun c => !(decide (c.id ∈ toDelete))), delivered)

/-- The Blitzortung socket `message` handler: decode the frame; on `null`
do nothing; otherwise build the strike with a fresh id, `lightningStore.add`
it and broadcast it. -/
def onBlitzMessage (freshId : String) (b : List Char) (st : StoreState)
    (clients : List SSEClient) :
    StoreState × List SSEClient × List (String × LightningStrike) :=
  match decodeBlitzortung b with
  | none => (st, clients, [])
  | some d =>
    let strike : LightningStrike := ⟨d.lat, d.lon, d.time, freshId⟩
    let r := broadcastLightning strike clients
    (addStrike lightningMaxSize strike st, r.1, r.2)

/-- Messages written to one SSE subscriber's stream. -/
inductive SSEMsg
  | connected (clientId : String)
  | history (strikes : List LightningStrike)
  | live (strike : LightningStrike)
  deriving DecidableEq, Repr

/-- `handleLightningSSE` at attach time: write the `connected` message,
write one `history` message with `getRecent 50` when non-empty, then —
and only then — register the subscriber (a JS `Map.set` with a fresh
key appends in insertion order). -/
def handleLightningSSE (clientId : String) (st : StoreState)
    (clients : List SSEClient) : List SSEMsg × List SSEClient :=
  let w1 : List SSEMsg := [SSEMsg.connected clientId]
  let recent := getRecent 50 st
  let w2 : List SSEMsg := if recent.length > 0 then [SSEMsg.history recent] else []
  (w1 ++ w2, clients ++ [⟨clientId, true⟩])

/-- A sequence of `broadcastLightning` calls (the live stream after an
attach): threads the registry through and concatenates the deliveries. -/
def broadcastSeq : List LightningStrike → List SSEClient →
    List SSEClient × List (String × LightningStrike)
  | [], reg => (reg, [])
  | s :: rest, reg =>
    let r1 := broadcastLightning s reg
    let r2 := broadcastSeq rest r1.1
    (r2.1, r1.2 ++ r2.2)

/-- The live events one subscriber receives out of a delivery log. -/
def clientLive (clientId : String) (ds : List (String × LightningStrike)) :
    List LightningStrike :=
  (ds.filter (fun p => decide (p.1 = clientId))).map Prod.snd

/-! ## Upstream connectors and credential gating -/

/-- WebSocket `readyState`. -/
inductive WsReadyState
  | connecting
  | opened
  | closing
  | closed
  deriving DecidableEq, Repr

/-- A created WebSocket object. -/
structure WsHandle where
  readyState : WsReadyState
  url : String
  deriving DecidableEq, Repr

/-- Module-level mutable state of the Blitzortung connector:
`currentServerIndex`, `blitzortungWs`, `reconnectTimer`, `isConnecting`. -/
structure BlitzConnState where
  currentServerIndex : Nat
  ws : Option WsHandle
  reconnectTimer : Option Nat
  isConnecting : Bool
  deriving DecidableEq, Repr

/-- The configured Blitzortung endpoints. -/
def blitzortungServers : List String :=
  ["wss://ws1.blitzortung.org", "wss://ws7.blitzortung.org", "wss://ws8.blitzortung.org"]

/-- Externally visible side effect of a connect call. -/
inductive ConnEffect
  | openSocket (url : String)
  deriving DecidableEq, Repr

/-- `ws && ws.readyState === WebSocket.OPEN`. -/
def wsIsOpen (ws : Option WsHandle) : Bool :=
  match ws with
  | some w => decide (w.readyState = WsReadyState.opened)
  | none => false

/-- `connectBlitzortung`: no-op when already connecting or the socket is
open; otherwise set `isConnecting`, pick the next server round-robin and
open a socket (or, if socket creation throws — `createFails` — clear the
flag and schedule a 5 s reconnect). -/
def connectBlitzortung (createFails : Bool) (st : BlitzConnState) :
    BlitzConnState × List ConnEffect :=
  if st.isConnecting || wsIsOpen st.ws then (st, [])
  else
    let serverUrl := blitzortungServers.getD
      (st.currentServerIndex % blitzortungServers.length) ""
    let st1 := { st with isConnecting := true,
                         currentServerIndex := st.currentServerIndex + 1 }
    if createFails then
      ({ st1 with isConnecting := false, reconnectTimer := some 5000 }, [])
    else
      ({ st1 with ws := some ⟨WsReadyState.connecting, serverUrl⟩ },
        [ConnEffect.openSocket serverUrl])

/-- One satellite record of the N2YO query result. -/
structure SatelliteRecord where
  satid : Nat
  satname : String
  deriving DecidableEq, Repr

/-- Result shape of the `satellites.tracked` procedure. -/
structure TrackedResult where
  available : Bool
  message : Option String
  satellites : List SatelliteRecord
  deriving DecidableEq, Repr

/-- `satellites.tracked`: with no `N2YO_API_KEY` return
`{available: false, message, satellites: []}` without fetching; with a key
return the fetch result, catching fetch errors into the same unavailable
shape. -/
def satellitesTracked (apiKey : Option String)
    (fetchOutcome : Except String (List SatelliteRecord)) : TrackedResult :=
  match apiKey with
  | none => ⟨false, some "N2YO API key not configured", []⟩
  | some _ =>
    match fetchOutcome with
    | Except.ok sats => ⟨true, none, sats⟩
    | Except.error _ => ⟨false, some "Failed to fetch satellite data", []⟩

/-- Module-level mutable state of the AISStream connector. -/
structure AISConnState where
  ws : Option WsHandle
  reconnectTimer : Option Nat
  isConnecting : Bool
  deriving DecidableEq, Repr

/-- `connectAISStream`: with no `AISSTREAM_API_KEY` return immediately
(feed disabled); otherwise same guard and connect shape as the lightning
connector, with a 10 s reconnect delay. -/
def connectAISStream (apiKey : Option String) (createFails : Bool)
    (st : AISConnState) : AISConnState × List ConnEffect :=
  match apiKey with
  | none => (st, [])
  | some _ =>
    if st.isConnecting || wsIsOpen st.ws then (st, [])
    else if createFails then
      ({ st with isConnecting := false, reconnectTimer := some 10000 }, [])
    else
      ({ st with isConnecting := true,
                 ws := some ⟨WsReadyState.connecting, "wss://stream.aisstream.io/v0/stream"⟩ },
        [ConnEffect.openSocket "wss://stream.aisstream.io/v0/stream"])

/-! ## AIS vessel pipeline -/

/-- A stored vessel position. -/
structure VesselPoint where
  mmsi : String
  name : String
  lat : ℚ
  lon : ℚ
  cog : ℚ
  sog : ℚ
  heading : ℚ
  time : Int
  shipType : Option Nat
  deriving DecidableEq, Repr

/-- `Message.PositionReport` fields used by the handler. -/
structure AISPositionReport where
  cog : Option ℚ
  sog : Option ℚ
  trueHeading : Option ℚ
  shipType : Option Nat
  latitude : Option ℚ
  longitude : Option ℚ
  userID : Option Nat
  deriving DecidableEq, Repr

/-- `Metadata` fields used by the handler (`mmsi` modelled already
stringified, as `String(meta.MMSI)` would produce). -/
structure AISMetadata where
  mmsi : Option String
  shipName : Option String
  latitudeMeta : Option ℚ
  longitudeMeta : Option ℚ
  deriving DecidableEq, Repr

/-- A parsed inbound AISStream message. -/
structure AISMessage where
  messageType : Option String
  metadata : Option AISMetadata
  positionReport : Option AISPositionReport
  deriving DecidableEq, Repr

/-- `pos?.Latitude ?? meta?.Latitude`. -/
def aisLat (msg : AISMessage) : Option ℚ :=
  (msg.positionReport.bind AISPositionReport.latitude).orElse
    (fun _ => msg.metadata.bind AISMetadata.latitudeMeta)

/-- `pos?.Longitude ?? meta?.Longitude`. -/
def aisLon (msg : AISMessage) : Option ℚ :=
  (msg.positionReport.bind AISPositionReport.longitude).orElse
    (fun _ => msg.metadata.bind AISMetadata.longitudeMeta)

/-- `String(meta?.MMSI ?? pos?.UserID ?? "")`. -/
def aisMmsi (msg : AISMessage) : String :=
  match (msg.metadata.bind AISMetadata.mmsi).orElse
    (fun _ => (msg.positionReport.bind AISPositionReport.userID).map toString) with
  | some s => s
  | none => ""

/-- `VesselStore`'s backing `Map.set` keyed by `mmsi`: replace in place if
the key exists (JS maps keep the original insertion position), else append. -/
def vesselSet (v : VesselPoint) (l : List VesselPoint) : List VesselPoint :=
  if l.any (fun x => decide (x.mmsi = v.mmsi)) then
    l.map (fun x => if x.mmsi = v.mmsi then v else x)
  else l ++ [v]

/-- `VesselStore.update`: set, then if the map outgrew 500 entries delete
the first inserted key (skipped if that key is the empty string, which is
falsy in JS). -/
def vesselUpdate (v : VesselPoint) (l : List VesselPoint) : List VesselPoint :=
  let l1 := vesselSet v l
  if l1.length > 500 then
    match l1 with
    | [] => l1
    | x :: rest => if x.mmsi = "" then l1 else rest
  else l1

/-- `broadcastVessel`: same collect-then-delete shape as the lightning
broadcaster, over the vessel SSE registry. -/
def broadcastVessel (v : VesselPoint) (clients : List SSEClient) :
    List SSEClient × List (String × VesselPoint) :=
  let delivered := (clients.filter (fun c => c.writeOk)).map (fun c => (c.id, v))
  let toDelete := (clients.filter (fun c => !c.writeOk)).map (fun c => c.id)
  (clients.filter (fun c => !(decide (c.id ∈ toDelete))), delivered)

/-- The AISStream socket `message` handler: drop non-PositionReport
messages, extract lat/lon/mmsi, drop falsy (`0`, absent) coordinates and
empty mmsi, drop out-of-range coordinates, drop near-(0,0) "null island"
positions, otherwise store and broadcast the vessel. -/
def onAISMessage (now : Int) (msg : AISMessage) (store : List VesselPoint)
    (clients : List SSEClient) :
    List VesselPoint × List SSEClient × List (String × VesselPoint) :=
  if msg.messageType ≠ some "PositionReport" then (store, clients, [])
  else
    let latO := aisLat msg
    let lonO := aisLon msg
    let mmsi := aisMmsi msg
    let latFalsy : Bool := match latO with
      | none => true
      | some q => decide (q = 0)
    let lonFalsy : Bool := match lonO with
      | none => true
      | some q => decide (q = 0)
    if latFalsy || lonFalsy || decide (mmsi = "") then (store, clients, [])
    else
      match latO, lonO with
      | some la, some lo =>
        if decide (la < -90) || decide (la > 90) || decide (lo < -180)
            || decide (lo > 180) then (store, clients, [])
        else if decide (|la| < 1 / 100) && decide (|lo| < 1 / 100) then
          (store, clients, [])
        else
          let vessel : VesselPoint :=
            ⟨mmsi,
              (match msg.metadata.bind AISMetadata.shipName with
               | some nm => if nm.trim ≠ "" then nm.trim else mmsi
               | none => mmsi),
              la, lo,
              ((msg.positionReport.bind AISPositionReport.cog).getD 0),
              ((msg.positionReport.bind AISPositionReport.sog).getD 0),
              (((msg.positionReport.bind AISPositionReport.trueHeading).orElse
                 (fun _ => msg.positionReport.bind AISPositionReport.cog)).getD 0),
              now, msg.positionReport.bind AISPositionReport.shipType⟩
          let r := broadcastVessel vessel clients
          (vesselUpdate vessel store, r.1, r.2)
      | _, _ => (store, clients, [])

/-! ## Concrete inputs used by witnesses -/

/-- A sample strike (t = 0). -/
def strikeA : LightningStrike := ⟨some ⟨105, 1⟩, some ⟨200, 1⟩, 0, "A"⟩

/-- A sample strike (t = 1). -/
def strikeB : LightningStrike := ⟨some ⟨110, 1⟩, some ⟨210, 1⟩, 1, "B"⟩

/-- A sample strike (t = 2). -/
def strikeC : LightningStrike := ⟨some ⟨115, 1⟩, some ⟨220, 1⟩, 2, "C"⟩

/-- A sample strike (t = 3). -/
def strikeD : LightningStrike := ⟨some ⟨120, 1⟩, some ⟨230, 1⟩, 3, "D"⟩

/-- A frame whose latitude capture is `-` (parsing to NaN): the range
check does not reject NaN. -/
def nanLatFrame : List Char :=
  ['{'] ++ "\"time\":5,\"lat\":-,\"lon\":5".toList ++ ['}']

/-- A plain valid ASCII frame used to witness the amended C2. -/
def plainFrame : List Char :=
  ['{'] ++ "\"time\":5,\"lat\":35.1,\"lon\":139.6".toList ++ ['}']

/-- A frame whose raw time `10^16 - 1` exceeds `2^53`: `parseInt` rounds
it to the double `10^16`, so the program's normalized time differs from
exact division with truncation. -/
def timeCexFrame : List Char :=
  ['{'] ++ "\"time\":9999999999999999,\"lat\":35.1,\"lon\":139.6".toList ++ ['}']

/-- A store holding exactly 50 strikes (timestamps 0..49). -/
def store50 : StoreState :=
  ⟨(List.range 50).map (fun i => ⟨some ⟨0, 0⟩, some ⟨0, 0⟩, i, toString i⟩), 50⟩

/-- A live strike not among the 50 history strikes. -/
def liveStrike : LightningStrike := ⟨some ⟨10, 0⟩, some ⟨20, 0⟩, 999, "live"⟩

/-- A PositionReport lying exactly on the equator. -/
def equatorMsg : AISMessage :=
  ⟨some "PositionReport",
    some ⟨some "123456789", some "SHIP", none, none⟩,
    some ⟨some 90, some 10, some 90, some 70, some 0, some (1396 / 10), some 123456789⟩⟩

/-! ## Decoder lemmas -/

/-- Cleanup never sees the noise: stripping noise first is invisible,
because every noise code point is non-ASCII, survives the structural
substitution unchanged, and is then stripped. -/
theorem cleanupFrame_denoise (l : List Char) :
    cleanupFrame l = cleanupFrame (denoise l) := by
  induction l with
  | nil => rfl
  | cons c rest ih =>
    by_cases h : isNoiseB c = true
    · have h' : 0x7F < c.toNat ∧ ¬ c = colonSub ∧ ¬ c = commaSub := by
        simpa [isNoiseB, and_assoc] using h
      have hs : structSub c = c := by simp [structSub, h'.2.1, h'.2.2]
      have h3 : keepAscii c = false := by simp [keepAscii]; omega
      have hd : denoise (c :: rest) = denoise rest := by
        simp [denoise, List.filter_cons, h]
      rw [hd]
      show List.filter keepAscii (List.map structSub (c :: rest)) = cleanupFrame (denoise rest)
      rw [List.map_cons, List.filter_cons, hs, h3]
      exact ih
    · have hd : denoise (c :: rest) = c :: denoise rest := by
        simp [denoise, List.filter_cons, h]
      rw [hd]
      show List.filter keepAscii (List.map structSub (c :: rest)) =
        List.filter keepAscii (List.map structSub (c :: denoise rest))
      rw [List.map_cons, List.map_cons, List.filter_cons, List.filter_cons]
      rw [show List.filter keepAscii (List.map structSub rest) =
        List.filter keepAscii (List.map structSub (denoise rest)) from ih]

/-- Cleanup of a structurally substituted all-ASCII string recovers the
original: substitutes map back to `:` and `,`, everything else is kept. -/
theorem cleanupFrame_subst (clean enc : List Char)
    (hascii : ∀ c ∈ clean, c.toNat ≤ 0x7F)
    (hsub : substListB clean enc = true) :
    cleanupFrame enc = clean := by
  induction clean generalizing enc with
  | nil =>
    cases enc with
    | nil => rfl
    | cons c cs => simp [substListB] at hsub
  | cons p ps ih =>
    cases enc with
    | nil => simp [substListB] at hsub
    | cons c cs =>
      simp only [substListB, Bool.and_eq_true] at hsub
      have hp : p.toNat ≤ 0x7F := hascii p (by simp)
      have hrest : cleanupFrame cs = ps :=
        ih cs (fun x hx => hascii x (by simp [hx])) hsub.2
      have hsubst : structSub c = p := by
        have hc := hsub.1
        simp only [substChB, Bool.or_eq_true, Bool.and_eq_true, decide_eq_true_eq] at hc
        rcases hc with (h | ⟨h1, h2⟩) | ⟨h1, h2⟩
        · subst h
          have h1 : p ≠ colonSub := fun he => absurd (he ▸ hp) (by decide)
          have h2 : p ≠ commaSub := fun he => absurd (he ▸ hp) (by decide)
          simp [structSub, h1, h2]
        · subst h1; subst h2; decide
        · subst h1; subst h2; decide
      have hkeep : keepAscii p = true := by simpa [keepAscii] using hp
      show List.filter keepAscii (List.map structSub (c :: cs)) = p :: ps
      rw [List.map_cons, List.filter_cons, hsubst, hkeep]
      simp only [if_true]
      rw [show List.filter keepAscii (List.map structSub cs) = cleanupFrame cs from rfl, hrest]

/-- Greedy capture over `l ++ x :: r` where all of `l` is in the class and
`x` is not: captures exactly `l`. -/
theorem capture_all_stop (cls : Char → Bool) (l : List Char) (x : Char) (r : List Char)
    (hl : ∀ c ∈ l, cls c = true) (hne : l ≠ []) (hx : cls x = false) :
    capture cls (l ++ x :: r) = some l := by
  have ht : (l ++ x :: r).takeWhile cls = l := by
    rw [List.takeWhile_append_of_pos hl]
    simp [List.takeWhile_cons, hx]
  simp [capture, ht, hne]

/-- A position whose head character is neither `"` nor the key's first
character cannot match `"?key"?:`. -/
theorem matchKeyAt_fail_head (k0 : Char) (ks : List Char) (cls : Char → Bool)
    (c : Char) (cs : List Char) (h1 : c ≠ '"') (h2 : c ≠ k0) :
    matchKeyAt (k0 :: ks) cls (c :: cs) = none := by
  have n1 : ¬ ('"' = c) := fun h => h1 h.symm
  have n2 : ¬ (k0 = c) := fun h => h2 h.symm
  have e1 : stripPrefixO ('"' :: k0 :: ks) (c :: cs) = none := by
    simp [stripPrefixO, n1]
  have e2 : stripPrefixO (k0 :: ks) (c :: cs) = none := by
    simp [stripPrefixO, n2]
  simp [matchKeyAt, e1, e2]

/-- Scanning skips over a whole segment none of whose characters can start
a `"?key"?:` match. -/
theorem findMatch_skip_seg (k0 : Char) (ks : List Char) (cls : Char → Bool)
    (l rest : List Char) (h : ∀ c ∈ l, c ≠ '"' ∧ c ≠ k0) :
    findMatch (k0 :: ks) cls (l ++ rest) = findMatch (k0 :: ks) cls rest := by
  induction l with
  | nil => rfl
  | cons c l ih =>
    have hc := h c (by simp)
    have hfail := matchKeyAt_fail_head k0 ks cls c (l ++ rest) hc.1 hc.2
    rw [List.cons_append]
    show (match matchKeyAt (k0 :: ks) cls (c :: (l ++ rest)) with
      | some d => some d
      | none => findMatch (k0 :: ks) cls (l ++ rest)) = findMatch (k0 :: ks) cls rest
    rw [hfail]
    exact ih (fun x hx => h x (by simp [hx]))

/-- One unfolding step of the scan. -/
theorem findMatch_cons (key : List Char) (cls : Char → Bool) (c : Char) (cs : List Char) :
    findMatch key cls (c :: cs) = match matchKeyAt key cls (c :: cs) with
      | some d => some d
      | none => findMatch key cls cs := rfl

/-- A digit is ASCII. -/
theorem digitCls_ascii (c : Char) (h : digitCls c = true) : c.toNat ≤ 0x7F := by
  simp [digitCls, Char.isDigit] at h
  have h3 : c.val.toNat ≤ 57 := UInt32.toNat_le_of_le (by decide) h.2
  simpa [Char.toNat] using h3.trans (by decide)

/-- A digit is neither a quote nor the letter `l`. -/
theorem digitCls_not_key (c : Char) (h : digitCls c = true) : c ≠ '"' ∧ c ≠ 'l' := by
  refine ⟨fun he => ?_, fun he => ?_⟩ <;> (subst he; exact absurd h (by decide))

/-- A `[-\d.]` character is ASCII. -/
theorem numCls_ascii (c : Char) (h : numCls c = true) : c.toNat ≤ 0x7F := by
  simp only [numCls, Bool.or_eq_true, decide_eq_true_eq] at h
  rcases h with (h | h) | h
  · subst h; decide
  · exact digitCls_ascii c h
  · subst h; decide

/-- A `[-\d.]` character is neither a quote nor the letter `l`. -/
theorem numCls_not_key (c : Char) (h : numCls c = true) : c ≠ '"' ∧ c ≠ 'l' := by
  simp only [numCls, Bool.or_eq_true, decide_eq_true_eq] at h
  rcases h with (h | h) | h
  · subst h; exact ⟨by decide, by decide⟩
  · exact digitCls_not_key c h
  · subst h; exact ⟨by decide, by decide⟩

/-- On a clean frame, the first match of `/"?time"?:(\d+)/` captures the
whole time digit run. -/
theorem find_time_clean (t a o : List Char) (hne : t ≠ [])
    (ht : ∀ c ∈ t, digitCls c = true) :
    findMatch timeKey digitCls (cleanFrame t a o) = some t := by
  rw [show findMatch timeKey digitCls (cleanFrame t a o)
      = findMatch timeKey digitCls ('"' :: 't' :: 'i' :: 'm' :: 'e' :: '"' :: ':' ::
          (t ++ ',' :: latTail a o)) from rfl]
  rw [findMatch_cons]
  rw [show matchKeyAt timeKey digitCls ('"' :: 't' :: 'i' :: 'm' :: 'e' :: '"' :: ':' ::
      (t ++ ',' :: latTail a o)) = capture digitCls (t ++ ',' :: latTail a o) from rfl]
  rw [capture_all_stop digitCls t ',' (latTail a o) ht hne (by decide)]

/-- On a clean frame, the first match of `/"?lat"?:([-\d.]+)/` captures the
whole latitude token. -/
theorem find_lat_clean (t a o : List Char) (hane : a ≠ [])
    (ht : ∀ c ∈ t, digitCls c = true) (ha : ∀ c ∈ a, numCls c = true) :
    findMatch latKey numCls (cleanFrame t a o) = some a := by
  show findMatch ('l' :: ['a', 't']) numCls (cleanFrame t a o) = some a
  rw [show findMatch ('l' :: ['a', 't']) numCls (cleanFrame t a o)
      = findMatch ('l' :: ['a', 't']) numCls (t ++ ',' :: latTail a o) from rfl]
  rw [findMatch_skip_seg 'l' ['a', 't'] numCls t (',' :: latTail a o)
      (fun c hc => digitCls_not_key c (ht c hc))]
  rw [show findMatch ('l' :: ['a', 't']) numCls (',' :: latTail a o)
      = findMatch ('l' :: ['a', 't']) numCls (latTail a o) from rfl]
  rw [show latTail a o = '"' :: 'l' :: 'a' :: 't' :: '"' :: ':' :: (a ++ ',' :: lonTail o) from rfl]
  rw [findMatch_cons]
  rw [show matchKeyAt ('l' :: ['a', 't']) numCls ('"' :: 'l' :: 'a' :: 't' :: '"' :: ':' ::
      (a ++ ',' :: lonTail o)) = capture numCls (a ++ ',' :: lonTail o) from rfl]
  rw [capture_all_stop numCls a ',' (lonTail o) ha hane (by decide)]

/-- On a clean frame, the first match of `/"?lon"?:([-\d.]+)/` captures the
whole longitude token. -/
theorem find_lon_clean (t a o : List Char) (hone : o ≠ [])
    (ht : ∀ c ∈ t, digitCls c = true) (ha : ∀ c ∈ a, numCls c = true)
    (ho : ∀ c ∈ o, numCls c = true) :
    findMatch lonKey numCls (cleanFrame t a o) = some o := by
  show findMatch ('l' :: ['o', 'n']) numCls (cleanFrame t a o) = some o
  rw [show findMatch ('l' :: ['o', 'n']) numCls (cleanFrame t a o)
      = findMatch ('l' :: ['o', 'n']) numCls (t ++ ',' :: latTail a o) from rfl]
  rw [findMatch_skip_seg 'l' ['o', 'n'] numCls t (',' :: latTail a o)
      (fun c hc => digitCls_not_key c (ht c hc))]
  rw [show findMatch ('l' :: ['o', 'n']) numCls (',' :: latTail a o)
      = findMatch ('l' :: ['o', 'n']) numCls (a ++ ',' :: lonTail o) from rfl]
  rw [findMatch_skip_seg 'l' ['o', 'n'] numCls a (',' :: lonTail o)
      (fun c hc => numCls_not_key c (ha c hc))]
  rw [show findMatch ('l' :: ['o', 'n']) numCls (',' :: lonTail o)
      = findMatch ('l' :: ['o', 'n']) numCls (lonTail o) from rfl]
  rw [show lonTail o = '"' :: 'l' :: 'o' :: 'n' :: '"' :: ':' :: (o ++ ['}']) from rfl]
  rw [findMatch_cons]
  rw [show matchKeyAt ('l' :: ['o', 'n']) numCls ('"' :: 'l' :: 'o' :: 'n' :: '"' :: ':' ::
      (o ++ ['}'])) = capture numCls (o ++ ['}']) from rfl]
  rw [capture_all_stop numCls o '}' [] ho hone (by decide)]

/-- Every character of a clean frame with digit/number tokens is ASCII. -/
theorem cleanFrame_ascii (t a o : List Char)
    (ht : ∀ c ∈ t, digitCls c = true) (ha : ∀ c ∈ a, numCls c = true)
    (ho : ∀ c ∈ o, numCls c = true) :
    ∀ c ∈ cleanFrame t a o, c.toNat ≤ 0x7F := by
  intro c hc
  simp only [cleanFrame, latTail, lonTail, List.mem_cons, List.mem_append,
    List.not_mem_nil, or_false] at hc
  rcases hc with rfl|rfl|rfl|rfl|rfl|rfl|rfl|rfl|h1|rfl|rfl|rfl|rfl|rfl|rfl|rfl|h2|rfl|rfl|rfl|rfl|rfl|rfl|rfl|h3|rfl
  all_goals try decide
  · exact digitCls_ascii c (ht c h1)
  · exact numCls_ascii c (ha c h2)
  · exact numCls_ascii c (ho c h3)

/-- Counterexample for C1: the claim describes the timestamp
normalisation as exact division by `10^6` truncated toward zero, but the
program computes it on JS doubles.  For the raw time `10^16 - 1` (above
`2^53`, like the ~1.7·10^18 ns timestamps the feed delivers), `parseInt`
rounds to the double `10^16` and `Math.floor(10^16 / 1e6)` gives
`10000000000`, while exact truncated division gives `9999999999`. -/
theorem decode_time_rounding_cex :
    decodeBlitzortung timeCexFrame
      = some ⟨some ⟨351, 1⟩, some ⟨1396, 1⟩, 10000000000⟩ ∧
    digitsVal "9999999999999999".toList > 10 ^ 15 ∧
    digitsVal "9999999999999999".toList / 10 ^ 6 = 9999999999 := by decide

/-- C1 (amended): For every frame encoding a `{time, lat, lon}` record
with in-range lat/lon values, whose `:`/`,` delimiters are (possibly)
replaced by the substitutes U+0106/U+0119 and with arbitrary noise code
points (non-ASCII, not a substitute) inserted anywhere,
`decodeBlitzortung` recovers the original latitude and longitude exactly,
and the timestamp normalised to milliseconds through JS double
arithmetic: the raw digits are rounded to the nearest binary64 by
`parseInt` (`jsParseIntDigits`, the identity below `2^53`), and when that
value exceeds `10^15` it is divided by `1e6` as doubles and truncated
toward zero (`jsFloorDivMillion`) — which agrees with exact truncated
division below `2^53` but not above (see the counterexample).  The raw
time is restricted below `2^1023` (far above any timestamp), since
`parseInt` of a ≥ 309-digit numeral would overflow to `Infinity`, which
this embedding does not model.  The in-range hypotheses are stated in the
exact scaled form `-90 * 10^exp ≤ num ≤ 90 * 10^exp`, i.e.
`-90 ≤ value ≤ 90` (see `jsLtInt_false_iff`/`jsGtInt_false_iff`). -/
theorem decodeBlitzortung_recovers (t a o frame enc : List Char) (dLat dLon : DecNum)
    (htne : t ≠ []) (ht : ∀ c ∈ t, digitCls c = true)
    (hbound : digitsVal t < 2 ^ 1023)
    (hane : a ≠ []) (ha : ∀ c ∈ a, numCls c = true)
    (hone : o ≠ []) (ho : ∀ c ∈ o, numCls c = true)
    (hpa : parseFloatD a = some dLat) (hpo : parseFloatD o = some dLon)
    (hra1 : -90 * 10 ^ dLat.exp ≤ dLat.num) (hra2 : dLat.num ≤ 90 * 10 ^ dLat.exp)
    (hro1 : -180 * 10 ^ dLon.exp ≤ dLon.num) (hro2 : dLon.num ≤ 180 * 10 ^ dLon.exp)
    (hsub : substListB (cleanFrame t a o) enc = true)
    (hnoise : denoise frame = enc) :
    decodeBlitzortung frame =
      some ⟨some dLat, some dLon,
        if jsParseIntDigits t > 10 ^ 15 then jsFloorDivMillion (jsParseIntDigits t)
        else jsParseIntDigits t⟩ := by
  have hascii := cleanFrame_ascii t a o ht ha ho
  have hclean : cleanupFrame frame = cleanFrame t a o := by
    rw [cleanupFrame_denoise, hnoise]
    exact cleanupFrame_subst _ _ hascii hsub
  have e1 : jsLtInt (some dLat) (-90) = false :=
    decide_eq_false (not_lt.mpr hra1)
  have e2 : jsGtInt (some dLat) 90 = false :=
    decide_eq_false (not_lt.mpr hra2)
  have e3 : jsLtInt (some dLon) (-180) = false :=
    decide_eq_false (not_lt.mpr hro1)
  have e4 : jsGtInt (some dLon) 180 = false :=
    decide_eq_false (not_lt.mpr hro2)
  simp only [decodeBlitzortung, hclean,
    find_time_clean t a o htne ht,
    find_lat_clean t a o hane ht ha,
    find_lon_clean t a o hone ht ha ho,
    hpa, hpo, e1, e2, e3, e4, Bool.or_self, Bool.or_false, Bool.false_or,
    if_false]
  simp

set_option maxRecDepth 8000 in
/-- Witness for C1: the scenario frame decodes to
`{lat: 35.1, lon: 139.6, time: 1700000000000}` (nanoseconds normalised to
milliseconds). -/
theorem decodeBlitzortung_recovers_witness :
    decodeBlitzortung scenFrame = some ⟨some ⟨351, 1⟩, some ⟨1396, 1⟩, 1700000000000⟩ := by
  have h := decodeBlitzortung_recovers "1700000000000123000".toList "35.1".toList
    "139.6".toList scenFrame (denoise scenFrame) ⟨351, 1⟩ ⟨1396, 1⟩
    (by decide) (by decide) (by decide) (by decide) (by decide) (by decide)
    (by decide) (by decide) (by decide) (by decide) (by decide) (by decide)
    (by decide) (by decide) rfl
  rw [h]
  decide

/-- The scaled-integer comparison used by the decoder agrees with the
rational value: `x < c` is false exactly when `c ≤ x` as rationals. -/
theorem jsLtInt_false_iff (d : DecNum) (c : Int) :
    jsLtInt (some d) c = false ↔ (c : ℚ) ≤ d.toQ := by
  have hpow : (0 : ℚ) < 10 ^ d.exp := by positivity
  rw [jsLtInt, decide_eq_false_iff_not, not_lt, DecNum.toQ, le_div_iff₀ hpow]
  constructor
  · intro h; exact_mod_cast h
  · intro h; exact_mod_cast h

/-- The scaled-integer comparison used by the decoder agrees with the
rational value: `x > c` is false exactly when `x ≤ c` as rationals. -/
theorem jsGtInt_false_iff (d : DecNum) (c : Int) :
    jsGtInt (some d) c = false ↔ d.toQ ≤ (c : ℚ) := by
  have hpow : (0 : ℚ) < 10 ^ d.exp := by positivity
  rw [jsGtInt, decide_eq_false_iff_not, not_lt, DecNum.toQ, div_le_iff₀ hpow]
  constructor
  · intro h; exact_mod_cast h
  · intro h; exact_mod_cast h


theorem lastN_of_length_le (n : Nat) (l : List α) (h : l.length ≤ n) : lastN n l = l := by
  simp [lastN, Nat.sub_eq_zero_of_le h]

theorem jsSliceLast_eq_lastN (l : List α) (n : Nat) (hn : n ≠ 0) :
    jsSliceLast l n = lastN n l := by
  simp [jsSliceLast, lastN, hn]

theorem length_lastN (n : Nat) (l : List α) : (lastN n l).length = min n l.length := by
  simp [lastN]
  omega

theorem addStrike_strikes (C : Nat) (hC : 1 ≤ C) (s : LightningStrike) (st : StoreState)
    (h : List LightningStrike) (h1 : st.strikes = lastN C h) :
    (addStrike C s st).strikes = lastN C (h ++ [s]) := by
  have hlN : (lastN C h).length = min C h.length := length_lastN C h
  by_cases hlen : h.length < C
  · have hall : lastN C h = h := lastN_of_length_le C h (Nat.le_of_lt hlen)
    have hle : (h ++ [s]).length ≤ C := by simp; omega
    rw [addStrike, h1, hall]
    simp only [List.length_append, List.length_singleton]
    rw [if_neg (by omega)]
    rw [lastN_of_length_le C (h ++ [s]) hle]
  · have hge : C ≤ h.length := Nat.le_of_not_lt hlen
    have hlenC : (lastN C h).length = C := by omega
    rw [addStrike, h1]
    simp only [List.length_append, List.length_singleton]
    rw [if_pos (by omega)]
    show jsSliceLast (lastN C h ++ [s]) C = lastN C (h ++ [s])
    rw [jsSliceLast_eq_lastN _ _ (by omega)]
    show (lastN C h ++ [s]).drop ((lastN C h ++ [s]).length - C) = lastN C (h ++ [s])
    rw [List.length_append, hlenC]
    simp only [List.length_singleton]
    have hdrop1 : C + 1 - C = 1 := by omega
    rw [hdrop1]
    rw [List.drop_append_of_le_length (by omega)]
    show (lastN C h).drop 1 ++ [s] = lastN C (h ++ [s])
    rw [show lastN C (h ++ [s]) = (h ++ [s]).drop (h.length + 1 - C) from by
      simp [lastN]]
    rw [List.drop_append_of_le_length (by omega)]
    rw [show (lastN C h).drop 1 = h.drop (h.length - C + 1) from by
      simp [lastN, List.drop_drop]]
    rw [show h.length - C + 1 = h.length + 1 - C from by omega]

theorem addStrike_total (C : Nat) (s : LightningStrike) (st : StoreState) :
    (addStrike C s st).total = st.total + 1 := by
  rw [addStrike]
  split <;> rfl

theorem addAll_spec (C : Nat) (hC : 1 ≤ C) (L : List LightningStrike)
    (st : StoreState) (h : List LightningStrike)
    (h1 : st.strikes = lastN C h) (h2 : st.total = h.length) :
    (addAll C L st).strikes = lastN C (h ++ L) ∧
    (addAll C L st).total = h.length + L.length := by
  induction L generalizing st h with
  | nil => simpa [addAll] using ⟨h1, h2⟩
  | cons s rest ih =>
    have hs := addStrike_strikes C hC s st h h1
    have htot : (addStrike C s st).total = (h ++ [s]).length := by
      simp [addStrike_total, h2]
    have := ih (addStrike C s st) (h ++ [s]) hs htot
    refine ⟨?_, ?_⟩
    · rw [show addAll C (s :: rest) st = addAll C rest (addStrike C s st) from rfl]
      rw [this.1, List.append_assoc]
      rfl
    · rw [show addAll C (s :: rest) st = addAll C rest (addStrike C s st) from rfl]
      rw [this.2]
      simp
      omega

/-- C3: For a lightning store of capacity `C`, after inserting `C + k`
strikes (`k > 0`) via `add` starting from the empty store, `getRecent C`
returns exactly the last `C` inserted strikes in insertion order and
`getTotal` equals `C + k`.  (`C ≥ 1`; the source instantiates `C = 500`,
the spec scenario `C = 3`.) -/
theorem ringBuffer_overflow (C k : Nat) (hC : 1 ≤ C) (hk : 1 ≤ k)
    (L : List LightningStrike) (hL : L.length = C + k) :
    getRecent C (addAll C L emptyStore) = lastN C L ∧
    getTotal (addAll C L emptyStore) = C + k := by
  obtain ⟨hstr, htot⟩ := addAll_spec C hC L emptyStore [] (by simp [emptyStore, lastN]) rfl
  constructor
  · rw [getRecent, hstr]
    rw [show (([] : List LightningStrike) ++ L) = L from by simp] at *
    rw [jsSliceLast_eq_lastN _ _ (by omega)]
    apply lastN_of_length_le
    rw [length_lastN]
    omega
  · rw [getTotal, htot]
    simpa using hL

/-- Witness for C3, the spec scenario: capacity 3, inserting
A(t=0), B(t=1), C(t=2), D(t=3) leaves `[B, C, D]` with lifetime count 4. -/
theorem ringBuffer_overflow_witness :
    getRecent 3 (addAll 3 [strikeA, strikeB, strikeC, strikeD] emptyStore)
        = [strikeB, strikeC, strikeD] ∧
    getTotal (addAll 3 [strikeA, strikeB, strikeC, strikeD] emptyStore) = 4 := by
  have h := ringBuffer_overflow 3 1 (by decide) (by decide)
    [strikeA, strikeB, strikeC, strikeD] (by decide)
  refine ⟨?_, h.2⟩
  rw [h.1]
  decide

/-- C4: `add` preserves the store invariant: if the buffer holds exactly
the most recently inserted `min(total, 500)` strikes of the insert history
`h` in insertion order (oldest evicted first), then after `add` it holds
the corresponding window of `h ++ [s]`, the total tracks the history
length, and the buffer length stays `≤ 500`.  The read operations
(`getRecent`, `getTotal`, `getLastMinute`) are pure functions of the state
in this embedding and cannot break the invariant. -/
theorem addStrike_invariant (st : StoreState) (h : List LightningStrike)
    (hinv1 : st.strikes = lastN lightningMaxSize h)
    (hinv2 : st.total = h.length) (s : LightningStrike) :
    (addStrike lightningMaxSize s st).strikes = lastN lightningMaxSize (h ++ [s]) ∧
    (addStrike lightningMaxSize s st).total = (h ++ [s]).length ∧
    (addStrike lightningMaxSize s st).strikes.length
      = min (addStrike lightningMaxSize s st).total lightningMaxSize ∧
    (addStrike lightningMaxSize s st).strikes.length ≤ lightningMaxSize := by
  have h1 := addStrike_strikes lightningMaxSize (by decide) s st h hinv1
  have h2 := addStrike_total lightningMaxSize s st
  refine ⟨h1, by simp [h2, hinv2], ?_, ?_⟩
  · rw [h1, length_lastN, h2, hinv2]
    simp [lightningMaxSize]
    omega
  · rw [h1, length_lastN]
    omega

/-- Witness for C4 at the empty store. -/
theorem addStrike_invariant_witness :
    (addStrike lightningMaxSize strikeA emptyStore).strikes
        = lastN lightningMaxSize ([] ++ [strikeA]) ∧
    (addStrike lightningMaxSize strikeA emptyStore).total
        = (([] : List LightningStrike) ++ [strikeA]).length ∧
    (addStrike lightningMaxSize strikeA emptyStore).strikes.length
      = min (addStrike lightningMaxSize strikeA emptyStore).total lightningMaxSize ∧
    (addStrike lightningMaxSize strikeA emptyStore).strikes.length ≤ lightningMaxSize :=
  addStrike_invariant emptyStore [] (by simp [emptyStore, lastN]) rfl strikeA

/-- Counterexample for C5: the claim says `getRecent n` returns the last
`n` stored strikes for every `n`, but for `n = 0` the code's
`strikes.slice(-0)` is `slice(0)` and returns every stored strike, not the
empty window. -/
theorem getRecent_zero_cex :
    getRecent 0 ⟨[strikeA], 1⟩ = [strikeA] ∧ [strikeA] ≠ ([] : List LightningStrike) :=
  ⟨rfl, by decide⟩

/-- C5 (amended): for every `n ≥ 1` and every store state, `getRecent n`
returns the suffix of the stored strikes of length `min n size` — the last
`n` stored strikes in insertion order, or all of them without error when
fewer than `n` exist.  (For `n = 0`, `slice(-0) = slice(0)` returns all
stored strikes, see the counterexample.) -/
theorem getRecent_amended (n : Nat) (hn : 1 ≤ n) (st : StoreState) :
    (getRecent n st).length = min n st.strikes.length ∧
    st.strikes.take (st.strikes.length - n) ++ getRecent n st = st.strikes := by
  have he : getRecent n st = lastN n st.strikes := by
    rw [getRecent, jsSliceLast_eq_lastN _ _ (by omega)]
  refine ⟨by rw [he, length_lastN], ?_⟩
  rw [he, lastN, List.take_append_drop]

/-- Witness for C5: `getRecent 2` on a store holding one strike returns
that strike without error. -/
theorem getRecent_amended_witness :
    (getRecent 2 ⟨[strikeA], 1⟩).length
        = min 2 ((⟨[strikeA], 1⟩ : StoreState)).strikes.length ∧
    ((⟨[strikeA], 1⟩ : StoreState)).strikes.take
        (((⟨[strikeA], 1⟩ : StoreState)).strikes.length - 2)
      ++ getRecent 2 ⟨[strikeA], 1⟩ = ((⟨[strikeA], 1⟩ : StoreState)).strikes :=
  getRecent_amended 2 (by decide) ⟨[strikeA], 1⟩


/-- Counterexample for C2: the claim says an event is returned only when
the extracted latitude is finite, but for a frame whose latitude capture
is `-`, `parseFloat` yields NaN (modelled `none`), the range check
`lat < -90 || lat > 90` is false on NaN, and an event is returned. -/
theorem decode_nan_cex :
    decodeBlitzortung nanLatFrame = some ⟨none, some ⟨5, 0⟩, 5⟩ ∧
    decodeBlitzortung nanLatFrame ≠ none := by decide

/-- C2 (amended): every event returned by `decodeBlitzortung` has its
latitude in `[-90, 90]` and longitude in `[-180, 180]` whenever they are
numbers — a capture parsing to NaN is not rejected by the range check, so
finiteness is not guaranteed (see the counterexample) — and a frame that
decodes to no event is never stored and never broadcast. -/
theorem decode_ranges_amended (b : List Char) (s : DecodedStrike)
    (h : decodeBlitzortung b = some s) :
    (∀ d, s.lat = some d → (-90 : ℚ) ≤ d.toQ ∧ d.toQ ≤ 90) ∧
    (∀ d, s.lon = some d → (-180 : ℚ) ≤ d.toQ ∧ d.toQ ≤ 180) ∧
    (∀ b2 fid st cl, decodeBlitzortung b2 = none →
       onBlitzMessage fid b2 st cl = (st, cl, [])) := by
  have third : ∀ b2 fid st cl, decodeBlitzortung b2 = none →
      onBlitzMessage fid b2 st cl = (st, cl, []) := by
    intro b2 fid st cl h0
    simp [onBlitzMessage, h0]
  simp only [decodeBlitzortung] at h
  split at h
  · exact absurd h (by simp)
  · split at h
    · exact absurd h (by simp)
    · split at h
      · exact absurd h (by simp)
      · split at h
        · exact absurd h (by simp)
        · rename_i hcond
          injection h with h
          subst h
          simp only [Bool.or_eq_true, not_or, Bool.not_eq_true] at hcond
          obtain ⟨⟨⟨hc1, hc2⟩, hc3⟩, hc4⟩ := hcond
          refine ⟨?_, ?_, third⟩
          · intro d hd
            simp only [DecodedStrike.lat] at hd
            rw [hd] at hc1 hc2
            constructor
            · have := (jsLtInt_false_iff d (-90)).mp hc1
              simpa using this
            · have := (jsGtInt_false_iff d 90).mp hc2
              simpa using this
          · intro d hd
            simp only [DecodedStrike.lon] at hd
            rw [hd] at hc3 hc4
            constructor
            · have := (jsLtInt_false_iff d (-180)).mp hc3
              simpa using this
            · have := (jsGtInt_false_iff d 180).mp hc4
              simpa using this

/-- Witness for C2 at a plain in-range frame. -/
theorem decode_ranges_amended_witness :
    (∀ d, (some (⟨351, 1⟩ : DecNum)) = some d → (-90 : ℚ) ≤ d.toQ ∧ d.toQ ≤ 90) ∧
    (∀ d, (some (⟨1396, 1⟩ : DecNum)) = some d → (-180 : ℚ) ≤ d.toQ ∧ d.toQ ≤ 180) ∧
    (∀ b2 fid st cl, decodeBlitzortung b2 = none →
       onBlitzMessage fid b2 st cl = (st, cl, [])) :=
  decode_ranges_amended plainFrame ⟨some ⟨351, 1⟩, some ⟨1396, 1⟩, 5⟩ (by decide)


/-- C6: whenever the connector is already connecting (`isConnecting`) or
connected (socket present with `readyState === OPEN`), `connectBlitzortung`
is a no-op: it opens no socket and leaves the whole connector state
(socket, server index, reconnect timer, flag) unchanged, so at most one
connection attempt is in flight. -/
theorem connectBlitzortung_noop (cf : Bool) (st : BlitzConnState)
    (h : st.isConnecting = true ∨
      ∃ w, st.ws = some w ∧ w.readyState = WsReadyState.opened) :
    connectBlitzortung cf st = (st, []) := by
  have hguard : (st.isConnecting || wsIsOpen st.ws) = true := by
    rcases h with h | ⟨w, hw, hr⟩
    · simp [h]
    · simp [wsIsOpen, hw, hr]
  simp [connectBlitzortung, hguard]

/-- Witness for C6 at a connecting state. -/
theorem connectBlitzortung_noop_witness :
    connectBlitzortung false ⟨0, none, none, true⟩ = (⟨0, none, none, true⟩, []) :=
  connectBlitzortung_noop false ⟨0, none, none, true⟩ (Or.inl rfl)

/-- C7: when a broadcast hits a subscriber whose write throws, every
other registered subscriber still receives the current event (the failing
subscriber is only collected during the iteration, never removed
mid-iteration), the failing subscriber is removed from the registry after
the iteration, it receives nothing from subsequent broadcasts, and every
healthy subscriber stays registered and receives subsequent events. -/
theorem broadcast_failed_removal (s s2 : LightningStrike) (clients : List SSEClient)
    (c : SSEClient) (hc : c ∈ clients) (hfail : c.writeOk = false)
    (hnd : (clients.map SSEClient.id).Nodup) :
    (∀ x ∈ clients, x.writeOk = true → (x.id, s) ∈ (broadcastLightning s clients).2) ∧
    (∀ x ∈ (broadcastLightning s clients).1, x.id ≠ c.id) ∧
    (∀ x ∈ clients, x.writeOk = true → x ∈ (broadcastLightning s clients).1) ∧
    (∀ p ∈ (broadcastLightning s2 (broadcastLightning s clients).1).2, p.1 ≠ c.id) ∧
    (∀ x ∈ clients, x.writeOk = true →
       (x.id, s2) ∈ (broadcastLightning s2 (broadcastLightning s clients).1).2) := by
  have hinj := List.inj_on_of_nodup_map hnd
  have hcid : c.id ∈ (clients.filter (fun z => !z.writeOk)).map SSEClient.id := by
    refine List.mem_map.mpr ⟨c, ?_, rfl⟩
    exact List.mem_filter.mpr ⟨hc, by simp [hfail]⟩
  have p2 : ∀ x ∈ (broadcastLightning s clients).1, x.id ≠ c.id := by
    intro x hx heq
    simp only [broadcastLightning, List.mem_filter, Bool.not_eq_true',
      decide_eq_false_iff_not] at hx
    exact hx.2 (heq ▸ hcid)
  have p3 : ∀ x ∈ clients, x.writeOk = true → x ∈ (broadcastLightning s clients).1 := by
    intro x hx hok
    simp only [broadcastLightning, List.mem_filter, Bool.not_eq_true',
      decide_eq_false_iff_not]
    refine ⟨hx, fun hmem => ?_⟩
    obtain ⟨z, hz, hzeq⟩ := List.mem_map.mp hmem
    have hz' := List.mem_filter.mp hz
    have : z = x := hinj hz'.1 hx hzeq
    subst this
    simp [hok] at hz'
  have p1 : ∀ x ∈ clients, x.writeOk = true →
      (x.id, s) ∈ (broadcastLightning s clients).2 := by
    intro x hx hok
    simp only [broadcastLightning]
    exact List.mem_map.mpr ⟨x, List.mem_filter.mpr ⟨hx, hok⟩, rfl⟩
  have mem_deliv : ∀ (e : LightningStrike) (reg : List SSEClient)
      (p : String × LightningStrike), p ∈ (broadcastLightning e reg).2 →
      ∃ y, y ∈ reg ∧ y.writeOk = true ∧ p = (y.id, e) := by
    intro e reg p hp
    simp only [broadcastLightning, List.mem_map, List.mem_filter] at hp
    obtain ⟨y, ⟨hy1, hy2⟩, rfl⟩ := hp
    exact ⟨y, hy1, hy2, rfl⟩
  refine ⟨p1, p2, p3, ?_, ?_⟩
  · intro p hp
    obtain ⟨y, hyR, _, rfl⟩ := mem_deliv s2 (broadcastLightning s clients).1 p hp
    exact p2 y hyR
  · intro x hx hok
    show (x.id, s2) ∈ (broadcastLightning s2 (broadcastLightning s clients).1).2
    simp only [broadcastLightning]
    exact List.mem_map.mpr ⟨x, List.mem_filter.mpr ⟨p3 x hx hok, hok⟩, rfl⟩


theorem clientLive_append (cid : String) (d1 d2 : List (String × LightningStrike)) :
    clientLive cid (d1 ++ d2) = clientLive cid d1 ++ clientLive cid d2 := by
  simp [clientLive, List.filter_append]

theorem clientLive_deliv_aux (cid : String) (e : LightningStrike) (l : List SSEClient)
    (huniq : ∀ x ∈ l, x.id ≠ cid) :
    clientLive cid ((l.filter (fun c => c.writeOk)).map (fun c => (c.id, e))) = [] := by
  induction l with
  | nil => rfl
  | cons x rest ih =>
    have hxid := huniq x (by simp)
    have ihr := ih (fun z hz => huniq z (by simp [hz]))
    rw [List.filter_cons]
    by_cases hw : x.writeOk = true
    · rw [if_pos hw, List.map_cons]
      show clientLive cid ((x.id, e) :: (rest.filter (fun c => c.writeOk)).map (fun c => (c.id, e))) = []
      rw [clientLive, List.filter_cons, if_neg (by simpa using hxid)]
      exact ihr
    · rw [if_neg hw]
      exact ihr

theorem clientLive_deliv (cid : String) (e : LightningStrike) (reg : List SSEClient)
    (hmem : (⟨cid, true⟩ : SSEClient) ∈ reg)
    (hnd : (reg.map SSEClient.id).Nodup) :
    clientLive cid (broadcastLightning e reg).2 = [e] := by
  show clientLive cid ((reg.filter (fun c => c.writeOk)).map (fun c => (c.id, e))) = [e]
  induction reg with
  | nil => cases hmem
  | cons x rest ih =>
    have hnd' : (rest.map SSEClient.id).Nodup := by
      rw [List.map_cons, List.nodup_cons] at hnd
      exact hnd.2
    have hxid : x.id ∉ rest.map SSEClient.id := by
      rw [List.map_cons, List.nodup_cons] at hnd
      exact hnd.1
    by_cases hx : x = (⟨cid, true⟩ : SSEClient)
    · subst hx
      rw [List.filter_cons, if_pos rfl, List.map_cons]
      show clientLive cid ((cid, e) :: (rest.filter (fun c => c.writeOk)).map (fun c => (c.id, e))) = [e]
      rw [clientLive, List.filter_cons, if_pos (by simp), List.map_cons]
      have hrest : ∀ z ∈ rest, z.id ≠ cid := by
        intro z hz heq
        exact hxid (heq ▸ List.mem_map.mpr ⟨z, hz, rfl⟩)
      have := clientLive_deliv_aux cid e rest hrest
      rw [clientLive] at this
      rw [this]
    · have hmem' : (⟨cid, true⟩ : SSEClient) ∈ rest := by
        rcases List.mem_cons.mp hmem with h | h
        · exact absurd h.symm hx
        · exact h
      have hxcid : x.id ≠ cid := by
        intro heq
        exact hxid (heq ▸ List.mem_map.mpr ⟨⟨cid, true⟩, hmem', rfl⟩)
      have ihr := ih hmem' hnd'
      rw [List.filter_cons]
      by_cases hw : x.writeOk = true
      · rw [if_pos hw, List.map_cons]
        show clientLive cid ((x.id, e) :: (rest.filter (fun c => c.writeOk)).map (fun c => (c.id, e))) = [e]
        rw [clientLive, List.filter_cons, if_neg (by simpa using hxcid)]
        exact ihr
      · rw [if_neg hw]
        exact ihr


theorem broadcast_reg_keep (e : LightningStrike) (reg : List SSEClient) (cid : String)
    (hmem : (⟨cid, true⟩ : SSEClient) ∈ reg)
    (hnd : (reg.map SSEClient.id).Nodup) :
    (⟨cid, true⟩ : SSEClient) ∈ (broadcastLightning e reg).1 ∧
    ((broadcastLightning e reg).1.map SSEClient.id).Nodup := by
  have hinj := List.inj_on_of_nodup_map hnd
  constructor
  · simp only [broadcastLightning, List.mem_filter, Bool.not_eq_true',
      decide_eq_false_iff_not]
    refine ⟨hmem, fun hin => ?_⟩
    obtain ⟨z, hz, hzeq⟩ := List.mem_map.mp hin
    have hz' := List.mem_filter.mp hz
    have : z = ⟨cid, true⟩ := hinj hz'.1 hmem hzeq
    rw [this] at hz'
    simp at hz'
  · have hsub : List.Sublist (broadcastLightning e reg).1 reg :=
      List.filter_sublist reg
    exact hnd.sublist (hsub.map SSEClient.id)

theorem broadcastSeq_client (cid : String) (L : List LightningStrike)
    (reg : List SSEClient)
    (hmem : (⟨cid, true⟩ : SSEClient) ∈ reg)
    (hnd : (reg.map SSEClient.id).Nodup) :
    clientLive cid (broadcastSeq L reg).2 = L := by
  induction L generalizing reg with
  | nil => rfl
  | cons s rest ih =>
    have h1 := clientLive_deliv cid s reg hmem hnd
    have h2 := broadcast_reg_keep s reg cid hmem hnd
    show clientLive cid ((broadcastLightning s reg).2
      ++ (broadcastSeq rest (broadcastLightning s reg).1).2) = s :: rest
    rw [clientLive_append, h1, ih (broadcastLightning s reg).1 h2.1 h2.2]
    rfl


/-- C8: when a subscriber attaches while the store holds exactly 50
strikes, the session writes exactly one `connected` message followed by
exactly one `history` message containing exactly those 50 strikes (the
`getRecent 50` snapshot), registers the subscriber only after those
writes, and the subsequent live stream delivers exactly the strikes
broadcast after attach — so no history strike is duplicated in the live
stream (the live strikes carry fresh ids, hypothesis `hnew`). -/
theorem sse_attach_history (clientId : String) (st : StoreState)
    (clients : List SSEClient) (L : List LightningStrike)
    (h50 : st.strikes.length = 50)
    (hfresh : ∀ x ∈ clients, x.id ≠ clientId)
    (hnd : (clients.map SSEClient.id).Nodup)
    (hnew : ∀ s ∈ L, s ∉ st.strikes) :
    (handleLightningSSE clientId st clients).1
      = [SSEMsg.connected clientId, SSEMsg.history st.strikes] ∧
    getRecent 50 st = st.strikes ∧
    (handleLightningSSE clientId st clients).2 = clients ++ [⟨clientId, true⟩] ∧
    clientLive clientId (broadcastSeq L (handleLightningSSE clientId st clients).2).2 = L ∧
    (∀ s ∈ st.strikes, s ∉ clientLive clientId
      (broadcastSeq L (handleLightningSSE clientId st clients).2).2) := by
  have hrec : getRecent 50 st = st.strikes := by
    rw [getRecent, jsSliceLast_eq_lastN _ _ (by omega), lastN_of_length_le _ _ (by omega)]
  have hwrites : (handleLightningSSE clientId st clients).1
      = [SSEMsg.connected clientId, SSEMsg.history st.strikes] := by
    show [SSEMsg.connected clientId] ++ (if (getRecent 50 st).length > 0
      then [SSEMsg.history (getRecent 50 st)] else []) =
      [SSEMsg.connected clientId, SSEMsg.history st.strikes]
    rw [hrec, if_pos (by omega)]
    rfl
  have hreg : (handleLightningSSE clientId st clients).2
      = clients ++ [⟨clientId, true⟩] := rfl
  have hmem : (⟨clientId, true⟩ : SSEClient) ∈ clients ++ [⟨clientId, true⟩] := by simp
  have hnd2 : ((clients ++ [(⟨clientId, true⟩ : SSEClient)]).map SSEClient.id).Nodup := by
    rw [List.map_append, List.nodup_append]
    refine ⟨hnd, by simp, ?_⟩
    intro a ha hb
    simp only [List.map_cons, List.map_nil, List.mem_singleton] at hb
    obtain ⟨x, hx, rfl⟩ := List.mem_map.mp ha
    exact hfresh x hx hb
  have hlive := broadcastSeq_client clientId L (clients ++ [⟨clientId, true⟩]) hmem hnd2
  refine ⟨hwrites, hrec, hreg, by rw [hreg]; exact hlive, ?_⟩
  intro s hs hmem2
  rw [hreg, hlive] at hmem2
  exact hnew s hmem2 hs

/-- Witness for C8 at a concrete 50-strike store. -/
theorem sse_attach_history_witness :
    (handleLightningSSE "c" store50 []).1
      = [SSEMsg.connected "c", SSEMsg.history store50.strikes] ∧
    getRecent 50 store50 = store50.strikes ∧
    (handleLightningSSE "c" store50 []).2 = [] ++ [⟨"c", true⟩] ∧
    clientLive "c" (broadcastSeq [liveStrike] (handleLightningSSE "c" store50 []).2).2
      = [liveStrike] ∧
    (∀ s ∈ store50.strikes, s ∉ clientLive "c"
      (broadcastSeq [liveStrike] (handleLightningSSE "c" store50 []).2).2) :=
  sse_attach_history "c" store50 [] [liveStrike] (by decide)
    (by decide) (by decide) (by decide)

/-- C9: when the required credential environment variable is absent, the
connector returns without attempting any connection and the query
interface returns `{available: false, satellites: []}` rather than
throwing. -/
theorem credentialAbsent_disables (key : Option String) (cf : Bool)
    (st : AISConnState) (f : Except String (List SatelliteRecord))
    (h : key = none) :
    connectAISStream key cf st = (st, []) ∧
    satellitesTracked key f = ⟨false, some "N2YO API key not configured", []⟩ := by
  subst h
  exact ⟨rfl, rfl⟩

/-- Witness for C9. -/
theorem credentialAbsent_disables_witness :
    connectAISStream none false ⟨none, none, false⟩ = (⟨none, none, false⟩, []) ∧
    satellitesTracked none (Except.ok []) =
      ⟨false, some "N2YO API key not configured", []⟩ :=
  credentialAbsent_disables none false ⟨none, none, false⟩ (Except.ok []) rfl


/-- Witness for C7: subscriber `b` fails among `a`, `b`, `c`. -/
theorem broadcast_failed_removal_witness :
    (∀ x ∈ [(⟨"a", true⟩ : SSEClient), ⟨"b", false⟩, ⟨"c", true⟩], x.writeOk = true →
      (x.id, strikeA) ∈ (broadcastLightning strikeA
        [(⟨"a", true⟩ : SSEClient), ⟨"b", false⟩, ⟨"c", true⟩]).2) ∧
    (∀ x ∈ (broadcastLightning strikeA
        [(⟨"a", true⟩ : SSEClient), ⟨"b", false⟩, ⟨"c", true⟩]).1,
      x.id ≠ (⟨"b", false⟩ : SSEClient).id) ∧
    (∀ x ∈ [(⟨"a", true⟩ : SSEClient), ⟨"b", false⟩, ⟨"c", true⟩], x.writeOk = true →
      x ∈ (broadcastLightning strikeA
        [(⟨"a", true⟩ : SSEClient), ⟨"b", false⟩, ⟨"c", true⟩]).1) ∧
    (∀ p ∈ (broadcastLightning strikeB (broadcastLightning strikeA
        [(⟨"a", true⟩ : SSEClient), ⟨"b", false⟩, ⟨"c", true⟩]).1).2,
      p.1 ≠ (⟨"b", false⟩ : SSEClient).id) ∧
    (∀ x ∈ [(⟨"a", true⟩ : SSEClient), ⟨"b", false⟩, ⟨"c", true⟩], x.writeOk = true →
      (x.id, strikeB) ∈ (broadcastLightning strikeB (broadcastLightning strikeA
        [(⟨"a", true⟩ : SSEClient), ⟨"b", false⟩, ⟨"c", true⟩]).1).2) :=
  broadcast_failed_removal strikeA strikeB
    [⟨"a", true⟩, ⟨"b", false⟩, ⟨"c", true⟩] ⟨"b", false⟩
    (by decide) rfl (by decide)

/-- C10: every inbound AIS PositionReport whose extracted latitude or
longitude is exactly `0`, or whose position has both `|lat| < 0.01` and
`|lon| < 0.01`, is dropped by the message handler — no vessel is stored
and nothing is broadcast.  In particular a genuine report exactly on the
equator or the prime meridian is always dropped (the JS falsy check
`!lat || !lon` treats `0` as absent). -/
theorem onAISMessage_drops_zero (now : Int) (msg : AISMessage)
    (store : List VesselPoint) (clients : List SSEClient)
    (hty : msg.messageType = some "PositionReport")
    (h : aisLat msg = some 0 ∨ aisLon msg = some 0 ∨
      (∃ la lo, aisLat msg = some la ∧ aisLon msg = some lo ∧
        |la| < 1 / 100 ∧ |lo| < 1 / 100)) :
    onAISMessage now msg store clients = (store, clients, []) := by
  have hty' : ¬ (msg.messageType ≠ some "PositionReport") := by simp [hty]
  rcases h with hla | hlo | ⟨la, lo, hla, hlo, h1, h2⟩
  · simp [onAISMessage, hty', hla]
  · simp [onAISMessage, hty', hlo]
  · by_cases hz1 : la = 0
    · subst hz1
      simp [onAISMessage, hty', hla]
    · by_cases hz2 : lo = 0
      · subst hz2
        simp [onAISMessage, hty', hlo]
      · have hr1 : ¬ (la < -90) := by
          have := (abs_lt.mp h1).1
          linarith
        have hr2 : ¬ (la > 90) := by
          have := (abs_lt.mp h1).2
          linarith
        have hr3 : ¬ (lo < -180) := by
          have := (abs_lt.mp h2).1
          linarith
        have hr4 : ¬ (lo > 180) := by
          have := (abs_lt.mp h2).2
          linarith
        have h1' : |la| < (100 : ℚ)⁻¹ := by rwa [one_div] at h1
        have h2' : ¬ ((100 : ℚ)⁻¹ ≤ |lo|) := by
          rw [not_le, ← one_div]
          exact h2
        by_cases hm : aisMmsi msg = ""
        · simp [onAISMessage, hty', hla, hlo, hm, hz1, hz2]
        · simp [onAISMessage, hty', hla, hlo, hm, hz1, hz2, hr1, hr2, hr3, hr4,
            h1', h2']

/-- Witness for C10: a PositionReport exactly on the equator is dropped. -/
theorem onAISMessage_drops_zero_witness :
    onAISMessage 0 equatorMsg [] [] = ([], [], []) :=
  onAISMessage_drops_zero 0 equatorMsg [] [] rfl (Or.inl rfl)

end Pipeline
